import Mathlib

/-
  Verification development for the CRUD scaffolding layer.

  Embedded source files:
  * `src/unnamed/part_001` — hook-based `CrudRepository` (search, findOne, findMany,
    create, update, remove, beforeSave/afterSave/beforeDelete/afterDelete hooks).
  * `src/src/infrastructure/repositories/CrudRepository.ts` — save-pipeline variant
    of `CrudRepository` (create/update delegate to `save`, no lifecycle hooks).
  * `src/src/infrastructure/decorators/fields/BaseField.ts` — reflect-metadata field
    store (`ColumnMetaDecorator`, `getFieldOptions`, `getMetaFields`,
    `getMetaRelations`) and the `BaseField` decorator factory.
  * `src/unnamed/part_000` — `PrimaryKeyField` (not needed by the claims).

  JavaScript plain objects are embedded as ordered association lists of
  (property name, value) pairs; `undefined` and `null` are explicit values.
  The persistence backend (TypeORM `manager.save` / the query builder) is
  external to the repository and is abstracted: a lookup function
  `db : Int → Option Model` plays the role of the locate query, and the save
  step is modelled as persisting the model handed to the mapper.  The
  caller-supplied transaction wrapper is modelled as invoking its callback
  once; events are tagged with whether they occur inside that callback.
-/

/-- A JavaScript runtime value, as far as the embedded code inspects one. -/
inductive Value where
  | vUndefined : Value
  | vNull : Value
  | vInt : Int → Value
  | vStr : String → Value
  | vBool : Bool → Value
  | vObj : List (String × Value) → Value

/-- A JavaScript plain object: ordered own enumerable properties (keys are
unique in any object produced by the JS runtime). -/
abbrev Model := List (String × Value)

/-- Own-property read (`model[k]`). -/
def getProp : Model → String → Option Value
  | [], _ => none
  | p :: m, k => if p.1 = k then some p.2 else getProp m k

/-- Own-property presence (lodash `_.has(model, k)` for a plain key). -/
def hasProp : Model → String → Bool
  | [], _ => false
  | p :: m, k => p.1 = k || hasProp m k

/-- Property write (`model[k] = v`): replace in place if present, else append. -/
def setProp : Model → String → Value → Model
  | [], k, v => [(k, v)]
  | p :: m, k, v => if p.1 = k then (k, v) :: m else p :: setProp m k v

/-- Modelled from the spec: `DataMapperHelper.applyChangesToModel` (the file
`usecases/helpers/DataMapperHelper.ts` is not under `src/`).  Spec: "for every
enumerable property present on `source`, overwrite the same-named property on
`targetModel`". -/
def applyChangesToModel (target source : Model) : Model :=
  source.foldl (fun acc kv => setProp acc kv.1 kv.2) target

/-- lodash `_.cloneDeep`: the embedding's values are immutable, so a deep copy
is the value itself. -/
def cloneDeep (m : Model) : Model := m

-- ### Field metadata store (src/src/infrastructure/decorators/fields/BaseField.ts)

/-- The declared field options object (`IBaseFieldOptions` plus the merged
internal fields); absent / `null` option fields are `none`. -/
structure FieldOptions where
  appType : Option String := none
  jsType : Option String := none
  dbType : Option String := none
  label : Option String := none
  hint : Option String := none
  exampleVal : Option String := none
  required : Option Bool := none
  nullable : Option Bool := none
  isArray : Option Bool := none
  items : Option String := none
deriving DecidableEq

/-- `IInternalFieldOptions`. -/
structure InternalFieldOptions where
  appType : Option String := none
  jsType : Option String := none
  decoratorName : Option String := none
  isArray : Option Bool := none
deriving DecidableEq

/-- The class universe: classes are numbered, and `chain c` is the prototype
chain that `Reflect.getMetadata` walks when reading metadata on class `c`
(for well-formed JS classes it starts with `c` itself). -/
structure MetaEnv where
  chain : Nat → List Nat

/-- The process-wide reflect-metadata state.  The per-class
`STEROIDS_META_KEYS` entry stores a *reference* to a mutable array of field
names (`keysRef`), and `arrays` is the heap of those arrays: pushing through
an inherited reference mutates the array seen by every class holding it,
exactly as `fieldNames.push(propertyName)` does in JS. -/
structure MetaState where
  arrayCount : Nat
  arrays : Nat → List String
  keysRef : Nat → Option Nat
  fieldMeta : Nat → String → Option FieldOptions
  fieldDecoratorName : Nat → String → Option String

/-- The state before any decorator has executed. -/
def initialMetaState : MetaState :=
  { arrayCount := 0
    arrays := fun _ => []
    keysRef := fun _ => none
    fieldMeta := fun _ _ => none
    fieldDecoratorName := fun _ _ => none }

/-- `Reflect.getMetadata(STEROIDS_META_KEYS, ...)`: first own entry along the
prototype chain. -/
def getOwnKeysRef (st : MetaState) : List Nat → Option Nat
  | [] => none
  | c :: rest =>
    match st.keysRef c with
    | some r => some r
    | none => getOwnKeysRef st rest

/-- `Reflect.getMetadata(STEROIDS_META_FIELD, ...)`: first own entry along the
prototype chain. -/
def getOwnFieldMeta (st : MetaState) (f : String) : List Nat → Option FieldOptions
  | [] => none
  | c :: rest =>
    match st.fieldMeta c f with
    | some o => some o
    | none => getOwnFieldMeta st f rest

/-- `ColumnMetaDecorator(options, internalOptions)(object, propertyName)`:
stores the descriptor and the decorator name under the property, then reads
the (possibly inherited) field-name array, pushes the property name into it
in place, and re-defines the keys metadata on this class to that array. -/
def columnMetaDecorator (env : MetaEnv) (options : FieldOptions)
    (decoratorName : Option String) (classId : Nat) (propertyName : String)
    (st : MetaState) : MetaState :=
  -- The two `Reflect.defineMetadata(STEROIDS_META_FIELD*, ...)` writes precede
  -- the `STEROIDS_META_KEYS` read in the source but do not touch the keys
  -- store, so the keys read is evaluated against `st` directly.
  let newFieldMeta := fun c f =>
    if c = classId ∧ f = propertyName then some options else st.fieldMeta c f
  let newFieldDecoratorName := fun c f =>
    if c = classId ∧ f = propertyName then decoratorName else st.fieldDecoratorName c f
  match getOwnKeysRef st (env.chain classId) with
  | some r =>
    { arrayCount := st.arrayCount
      arrays := fun q => if q = r then st.arrays r ++ [propertyName] else st.arrays q
      keysRef := fun d => if d = classId then some r else st.keysRef d
      fieldMeta := newFieldMeta
      fieldDecoratorName := newFieldDecoratorName }
  | none =>
    { arrayCount := st.arrayCount + 1
      arrays := fun q => if q = st.arrayCount then [propertyName] else st.arrays q
      keysRef := fun d => if d = classId then some st.arrayCount else st.keysRef d
      fieldMeta := newFieldMeta
      fieldDecoratorName := newFieldDecoratorName }

/-- `getMetaFields(MetaClass)`: the registered field-name list, or `[]`. -/
def getMetaFields (env : MetaEnv) (st : MetaState) (c : Nat) : List String :=
  match getOwnKeysRef st (env.chain c) with
  | some r => st.arrays r
  | none => []

/-- `getFieldOptions(targetClass, fieldName)`. -/
def getFieldOptions (env : MetaEnv) (st : MetaState) (c : Nat) (f : String) :
    Option FieldOptions :=
  getOwnFieldMeta st f (env.chain c)

/-- Whether a descriptor declares a relation field
(`['relationId', 'relation'].includes(options.appType)`). -/
def isRelationAppType (o : FieldOptions) : Bool :=
  o.appType = some "relationId" || o.appType = some "relation"

/-- The filter body of `getMetaRelations`: reading `options.appType` of a
field with no stored descriptor is a JS `TypeError` (reading a property of
`undefined`), modelled as an error. -/
def relationNamesOf (env : MetaEnv) (st : MetaState) (c : Nat) :
    List String → Except String (List String)
  | [] => Except.ok []
  | f :: rest =>
    match getFieldOptions env st c f with
    | none => Except.error "TypeError: Cannot read properties of undefined (reading appType)"
    | some o =>
      (relationNamesOf env st c rest).map
        (fun rs => if isRelationAppType o then f :: rs else rs)

/-- `getMetaRelations(MetaClass)`. -/
def getMetaRelations (env : MetaEnv) (st : MetaState) (c : Nat) :
    Except String (List String) :=
  relationNamesOf env st c (getMetaFields env st c)

-- ### The BaseField decorator factory

/-- JS `x || undefined` / `x || null` on an optional string (the empty string
is falsy). -/
def truthyOrNone (s : Option String) : Option String :=
  match s with
  | some s => if s = "" then none else some s
  | none => none

/-- JS `b || null` on an optional boolean. -/
def truthyBoolOrNone (b : Option Bool) : Option Bool :=
  match b with
  | some true => some true
  | _ => none

/-- The `ApiProperty` argument object built by `BaseField`. -/
structure ApiPropertyOptions where
  type : Option String
  description : Option String
  exampleVal : Option String
  required : Bool
  isArray : Option Bool
deriving DecidableEq

/-- The merged options object
`{label: null, hint: null, items: null, ...options, isArray: ..., appType: ...}`
handed to `ColumnMetaDecorator` (spreading `options` keeps its own fields;
the three leading nulls only matter when `options` omits them, which the
`Option`-valued fields already encode). -/
def mergedColumnOptions (o : FieldOptions) (io : InternalFieldOptions) : FieldOptions :=
  { o with
    isArray := truthyBoolOrNone io.isArray
    appType := truthyOrNone io.appType }

/-- The composite decorator produced by a successful `BaseField` call. -/
structure DecoratorApplication where
  columnMetaOptions : FieldOptions
  columnMetaDecoratorName : Option String
  apiPropertyOptions : ApiPropertyOptions
  includeIsNotEmpty : Bool
deriving DecidableEq

/-- The `TypeError` raised when `BaseField` dereferences its `null` options. -/
def baseFieldNullTypeError : String :=
  "TypeError: Cannot read properties of null (reading jsType)"

/-- `BaseField(options = null, internalOptions = {})`: building the argument
object for `ApiProperty` reads `options.jsType`, `options.label`,
`options.example`, `options.nullable`, `options.isArray` and the
`options.required && IsNotEmpty()` element reads `options.required`; with
`options === null` the first such read throws a `TypeError` while the
decorator list is being built. -/
def BaseField (options : Option FieldOptions)
    (internalOptions : InternalFieldOptions) : Except String DecoratorApplication :=
  match options with
  | none => Except.error baseFieldNullTypeError
  | some o =>
    Except.ok
      { columnMetaOptions := mergedColumnOptions o internalOptions
        columnMetaDecoratorName := internalOptions.decoratorName
        apiPropertyOptions :=
          { type := o.jsType
            description := truthyOrNone o.label
            exampleVal := truthyOrNone o.exampleVal
            required := o.nullable = some false
            isArray := o.isArray }
        includeIsNotEmpty := o.required = some true }

/-- Metadata states reachable by decorator executions that all target the
single class `c`. -/
inductive ReachableOn (env : MetaEnv) (c : Nat) : MetaState → Prop
  | init : ReachableOn env c initialMetaState
  | step (o : FieldOptions) (dn : Option String) (p : String) (st : MetaState) :
      ReachableOn env c st → ReachableOn env c (columnMetaDecorator env o dn c p st)

/-- Metadata states reachable by arbitrary decorator executions. -/
inductive ReachableMeta (env : MetaEnv) : MetaState → Prop
  | init : ReachableMeta env initialMetaState
  | step (o : FieldOptions) (dn : Option String) (c : Nat) (p : String) (st : MetaState) :
      ReachableMeta env st → ReachableMeta env (columnMetaDecorator env o dn c p st)

-- ### Generic repository (src/unnamed/part_001)

/-- Observable steps of a repository operation.  Each step is recorded paired
with a Bool telling whether it executed inside the callback handed to the
caller-supplied transaction wrapper. -/
inductive Step where
  | locate : Step
  | beforeSaveStep : Step
  | persistStep : Step
  | afterSaveStep : Step
  | beforeDeleteStep : Step
  | removeStep : Step
  | afterDeleteStep : Step
deriving DecidableEq

/-- Result of `CrudRepository.update` (hook-based variant): the `relations`
list of the Search Query it built, the outcome (the next state handed to
`beforeSave` and persisted, or the thrown error), and the event trace. -/
structure UpdateResult where
  searchRelations : List String
  outcome : Except String Model
  events : List (Step × Bool)

/-- Result of a `create`: the model handed to the mapper / `manager.save`,
and the event trace. -/
structure CreateResult where
  persistedModel : Model
  events : List (Step × Bool)

namespace CrudRepository

/-- `update(id, model, transactionHandler?)` of the hook-based variant:
builds a Search Query with condition `{[primaryKey]: id}` and
`relations = getMetaRelations(model.constructor).filter(key => _has(model, key))`,
locates the previous state (`findOne`, on the default connection, before any
transaction is opened), throws `Not found model by id: <id>` when absent,
deep-clones the previous state, overlays the incoming model via
`applyChangesToModel`, and runs `beforeSave` / `manager.save` / `afterSave` —
inside the wrapper callback when a transaction handler is supplied, directly
otherwise.  `db` abstracts the locate query; the save is modelled as
persisting the merged model. -/
def update (env : MetaEnv) (st : MetaState) (modelCtor : Nat)
    (db : Int → Option Model) (id : Int) (model : Model) (useTx : Bool) :
    UpdateResult :=
  match getMetaRelations env st modelCtor with
  | Except.error e => { searchRelations := [], outcome := Except.error e, events := [] }
  | Except.ok rels =>
    let searchRelations := rels.filter (fun key => hasProp model key)
    match db id with
    | none =>
      { searchRelations
        outcome := Except.error ("Not found model by id: " ++ toString id)
        events := [(Step.locate, false)] }
    | some prevModel =>
      let nextModel := applyChangesToModel (cloneDeep prevModel) model
      { searchRelations
        outcome := Except.ok nextModel
        events :=
          (Step.locate, false) ::
            (if useTx then
              [(Step.beforeSaveStep, true), (Step.persistStep, true),
               (Step.afterSaveStep, true)]
            else
              [(Step.beforeSaveStep, false), (Step.persistStep, false),
               (Step.afterSaveStep, false)]) }

/-- `create(model, transactionHandler?)` of the hook-based variant: runs
`beforeSave(null, model)`, saves `modelToEntity(model)` — the incoming model
is handed to the mapper unmodified — merges the returned entity back, runs
`afterSave(null, model)`; the whole save handler runs inside the wrapper
callback when a transaction handler is supplied. -/
def create (model : Model) (useTx : Bool) : CreateResult :=
  { persistedModel := model
    events :=
      if useTx then
        [(Step.beforeSaveStep, true), (Step.persistStep, true), (Step.afterSaveStep, true)]
      else
        [(Step.beforeSaveStep, false), (Step.persistStep, false), (Step.afterSaveStep, false)] }

/-- `remove(id, transactionHandler?)` of the hook-based variant: with a
transaction handler it runs `beforeDelete(id)`, `manager.remove(id)`,
`afterDelete(id)` inside the wrapper callback; without one it calls
`this.dbRepository.manager.remove(id)` directly. -/
def remove (id : Int) (useTx : Bool) : List (Step × Bool) :=
  if useTx then
    [(Step.beforeDeleteStep, true), (Step.removeStep, true), (Step.afterDeleteStep, true)]
  else
    [(Step.removeStep, false)]

/-- The default `beforeDelete` hook body is empty: it changes nothing. -/
def beforeDeleteDefault (id : Int) (db : Int → Option Model) : Int → Option Model := db

/-- The default `afterDelete` hook body is empty: it changes nothing. -/
def afterDeleteDefault (id : Int) (db : Int → Option Model) : Int → Option Model := db

end CrudRepository

-- ### Entity-to-model mapping (part_001) and the save-pipeline variant

/-- A domain model produced by the Data Mapper: an instance of the
repository's model class carrying the copied properties. -/
structure DomainModel where
  cls : Nat
  props : Model

/-- Modelled from the spec: `DataMapperHelper.anyToModel` (the file
`usecases/helpers/DataMapperHelper.ts` is not under `src/`).  Spec:
"constructs a new instance of `ModelClass` and copies every enumerable
property from the source, performing no filtering". -/
def anyToModel (source : Model) (modelClass : Nat) : DomainModel :=
  { cls := modelClass, props := source }

/-- The `Misconfigured` error message thrown by `entityToModel`. -/
def misconfiguredMsg (repoName : String) : String :=
  "Property modelClass is not set in repository: " ++ repoName

namespace CrudRepository

/-- `entityToModel(obj)`: throws when `modelClass` is unset, otherwise maps
through `DataMapperHelper.anyToModel`. -/
def entityToModel (modelClass : Option Nat) (repoName : String) (obj : Model) :
    Except String DomainModel :=
  match modelClass with
  | none => Except.error (misconfiguredMsg repoName)
  | some cls => Except.ok (anyToModel obj cls)

/-- `findOne(conditionOrQuery)`: `row ? this.entityToModel(row) : null`;
`row` is the (optional) raw entity returned by the query builder. -/
def findOne (modelClass : Option Nat) (repoName : String) (row : Option Model) :
    Except String (Option DomainModel) :=
  match row with
  | none => Except.ok none
  | some r => (entityToModel modelClass repoName r).map some

/-- Sequential `rows.map(row => this.entityToModel(row))`: the first mapping
that throws aborts the whole map. -/
def mapRows (modelClass : Option Nat) (repoName : String) :
    List Model → Except String (List DomainModel)
  | [] => Except.ok []
  | r :: rows =>
    match entityToModel modelClass repoName r with
    | Except.error e => Except.error e
    | Except.ok m => (mapRows modelClass repoName rows).map (fun ms => m :: ms)

/-- `findMany(conditionOrQuery)`: `rows.map(row => this.entityToModel(row))`. -/
def findMany (modelClass : Option Nat) (repoName : String) (rows : List Model) :
    Except String (List DomainModel) :=
  mapRows modelClass repoName rows

end CrudRepository

/-- The search result envelope (`SearchResultDto`). -/
structure SearchResultEnv where
  items : List DomainModel
  total : Nat

/-- `search(dto, searchQuery)` of the hook-based variant: the raw rows
returned by `SearchHelper.search` are mapped through `entityToModel`
(`result.items = result.items.map(item => this.entityToModel(item))`). -/
def CrudRepository.searchMapped (modelClass : Option Nat) (repoName : String)
    (rows : List Model) (total : Nat) : Except String SearchResultEnv :=
  (CrudRepository.mapRows modelClass repoName rows).map
    (fun items => { items := items, total := total })

/-- `create(model, transactionHandler?)` of the save-pipeline variant
(src/src/infrastructure/repositories/CrudRepository.ts):
`model[this.primaryKey] = undefined; return this.save(model, ...)` — the
primary-key property is set to `undefined` before the model reaches
`saveInternal` / `manager.save`. -/
def CrudRepositorySaveVariant.create (primaryKey : String) (model : Model)
    (useTx : Bool) : CreateResult :=
  let cleared := setProp model primaryKey Value.vUndefined
  { persistedModel := cleared
    events := [(Step.persistStep, useTx)] }

-- ### Invariant and sample objects used by the theorems

/-- All metadata written so far concerns class `c`, and every name in `c`'s
registered field-name array has a stored descriptor on `c`. -/
def SingleClassInv (c : Nat) (st : MetaState) : Prop :=
  (∀ d, d ≠ c → st.keysRef d = none) ∧
  (∀ d f, d ≠ c → st.fieldMeta d f = none) ∧
  (∀ r, st.keysRef c = some r → ∀ f ∈ st.arrays r, st.fieldMeta c f ≠ none)

/-- A class universe with no inheritance: every prototype chain is the class
itself. -/
def flatChainEnv : MetaEnv := { chain := fun d => [d] }

/-- A two-class universe: class 1 extends class 0. -/
def subclassEnv : MetaEnv :=
  { chain := fun c => if c = 1 then [1, 0] else [c] }

/-- Sample descriptor of a `relation` field. -/
def relOptions : FieldOptions := { appType := some "relation" }

/-- Sample descriptor of a plain `string` field. -/
def strOptions : FieldOptions := { appType := some "string" }

/-- Sample state for the subclass scenario: decorate `f1` on class 0, then
`f2` on its subclass, class 1.  The second decoration finds class 0's
field-name array through the prototype chain and pushes into it. -/
def subclassState : MetaState :=
  columnMetaDecorator subclassEnv relOptions (some "RelationField") 1 "f2"
    (columnMetaDecorator subclassEnv relOptions (some "RelationField") 0 "f1"
      initialMetaState)

/-- Sample state decorating the same property of class 0 twice. -/
def redecoratedTwiceState : MetaState :=
  columnMetaDecorator flatChainEnv strOptions (some "StringField") 0 "f"
    (columnMetaDecorator flatChainEnv relOptions (some "RelationField") 0 "f"
      initialMetaState)

/-- Sample state in which only the last of the two decorations ran. -/
def lastDecorationOnlyState : MetaState :=
  columnMetaDecorator flatChainEnv strOptions (some "StringField") 0 "f"
    initialMetaState

/-- Sample metadata for a class 0 with fields `author` (relation),
`tags` (relation) and `title` (string), decorated in that order. -/
def articleMetaState : MetaState :=
  columnMetaDecorator flatChainEnv strOptions (some "StringField") 0 "title"
    (columnMetaDecorator flatChainEnv relOptions (some "RelationField") 0 "tags"
      (columnMetaDecorator flatChainEnv relOptions (some "RelationField") 0 "author"
        initialMetaState))

/-- A storage with no rows. -/
def emptyDb : Int → Option Model := fun _ => none

/-- A sample persisted row for id 1, with a nested relation sub-object. -/
def sampleArticle : Model :=
  [("id", Value.vInt 1), ("title", Value.vStr "old"),
   ("author", Value.vObj [("id", Value.vInt 7), ("name", Value.vStr "Bob")])]

/-- A storage holding exactly `sampleArticle` under id 1. -/
def sampleDb : Int → Option Model := fun i => if i = 1 then some sampleArticle else none

/-- A sample partial update: replaces `title` and the whole `author`
sub-object (which drops the sibling field `name` of the nested object). -/
def samplePatch : Model :=
  [("title", Value.vStr "new"), ("author", Value.vObj [("id", Value.vInt 8)])]

/-- A sample incoming model touching `title` and `tags` but not `author`. -/
def sampleRelPatch : Model :=
  [("title", Value.vStr "x"), ("tags", Value.vObj [])]

/-- A model whose caller pre-populated the primary key. -/
def prePopulatedModel : Model := [("id", Value.vInt 99), ("name", Value.vStr "a")]

-- ### Basic association-list lemmas

theorem hasProp_eq_false_of_not_mem (m : Model) (k : String)
    (h : k ∉ m.map Prod.fst) : hasProp m k = false := by
  induction m with
  | nil => rfl
  | cons p m ih =>
    rw [List.map_cons, List.mem_cons] at h
    push_neg at h
    simp [hasProp, Ne.symm h.1, ih h.2]

theorem getProp_setProp_self (m : Model) (k : String) (v : Value) :
    getProp (setProp m k v) k = some v := by
  induction m with
  | nil => simp [setProp, getProp]
  | cons p m ih =>
    by_cases hp : p.1 = k
    · simp [setProp, getProp, hp]
    · simp [setProp, getProp, hp, ih]

theorem getProp_setProp_of_ne (m : Model) (k k' : String) (v : Value)
    (h : k' ≠ k) :
    getProp (setProp m k v) k' = getProp m k' := by
  induction m with
  | nil => simp [setProp, getProp, Ne.symm h]
  | cons p m ih =>
    by_cases hp : p.1 = k
    · simp [setProp, getProp, hp, Ne.symm h]
    · simp [setProp, getProp, hp, ih]

theorem applyChangesToModel_cons (t : Model) (a : String × Value) (s : Model) :
    applyChangesToModel t (a :: s) = applyChangesToModel (setProp t a.1 a.2) s := rfl

/-- The merge contract: for every key present on `source` the merged object
takes `source`'s value, for every other key it keeps `target`'s value
(assuming `source` has no duplicate keys, as JS own-property iteration
guarantees). -/
theorem getProp_applyChangesToModel (s t : Model)
    (hs : (s.map Prod.fst).Nodup) (k : String) :
    getProp (applyChangesToModel t s) k =
      if hasProp s k then getProp s k else getProp t k := by
  induction s generalizing t with
  | nil => simp [applyChangesToModel, hasProp]
  | cons a s ih =>
    rw [List.map_cons, List.nodup_cons] at hs
    rw [applyChangesToModel_cons, ih _ hs.2]
    by_cases hk : a.1 = k
    · subst hk
      have hsk : hasProp s a.1 = false := hasProp_eq_false_of_not_mem s a.1 hs.1
      have h1 : hasProp (a :: s) a.1 = true := by simp [hasProp]
      have h2 : getProp (a :: s) a.1 = some a.2 := by simp [getProp]
      simp [hsk, h1, h2, getProp_setProp_self]
    · have h1 : hasProp (a :: s) k = hasProp s k := by simp [hasProp, hk]
      have h2 : getProp (a :: s) k = getProp s k := by simp [getProp, hk]
      rw [h1, h2]
      by_cases hsk : hasProp s k = true
      · simp [hsk]
      · simp only [Bool.not_eq_true] at hsk
        simp [hsk, getProp_setProp_of_ne t a.1 k a.2 (fun hh => hk hh.symm)]

-- ### Metadata-store lemmas

theorem getOwnKeysRef_eq_none (st : MetaState) (h : ∀ d, st.keysRef d = none) :
    ∀ l, getOwnKeysRef st l = none := by
  intro l
  induction l with
  | nil => rfl
  | cons c rest ih => simp [getOwnKeysRef, h c, ih]

theorem getOwnKeysRef_cons_some (st : MetaState) (c : Nat) (rest : List Nat) (r : Nat)
    (h : st.keysRef c = some r) : getOwnKeysRef st (c :: rest) = some r := by
  simp [getOwnKeysRef, h]

theorem getOwnKeysRef_mem (st : MetaState) (l : List Nat) (r : Nat)
    (h : getOwnKeysRef st l = some r) : ∃ d ∈ l, st.keysRef d = some r := by
  induction l with
  | nil => simp [getOwnKeysRef] at h
  | cons c rest ih =>
    cases hc : st.keysRef c with
    | some r' =>
      rw [getOwnKeysRef_cons_some st c rest r' hc] at h
      exact ⟨c, by simp, by rw [hc, Option.some.inj h]⟩
    | none =>
      have h' : getOwnKeysRef st rest = some r := by
        simpa [getOwnKeysRef, hc] using h
      obtain ⟨d, hd, hkd⟩ := ih h'
      exact ⟨d, List.mem_cons_of_mem c hd, hkd⟩

theorem getOwnFieldMeta_ne_none_of_mem (st : MetaState) (f : String) (l : List Nat)
    (c : Nat) (hc : c ∈ l) (h : st.fieldMeta c f ≠ none) :
    getOwnFieldMeta st f l ≠ none := by
  induction l with
  | nil => simp at hc
  | cons d rest ih =>
    cases hd : st.fieldMeta d f with
    | some o => simp [getOwnFieldMeta, hd]
    | none =>
      simp only [getOwnFieldMeta, hd]
      rcases List.mem_cons.mp hc with h1 | h1
      · subst h1; exact absurd hd h
      · exact ih h1

theorem relationNamesOf_ok (env : MetaEnv) (st : MetaState) (c : Nat)
    (l : List String) (h : ∀ f ∈ l, getFieldOptions env st c f ≠ none) :
    ∃ L, relationNamesOf env st c l = Except.ok L := by
  induction l with
  | nil => exact ⟨[], rfl⟩
  | cons f rest ih =>
    cases hf : getFieldOptions env st c f with
    | none => exact absurd hf (h f (by simp))
    | some o =>
      obtain ⟨L, hL⟩ := ih (fun g hg => h g (by simp [hg]))
      exact ⟨if isRelationAppType o then f :: L else L,
        by simp [relationNamesOf, hf, hL, Except.map]⟩

theorem relationNamesOf_mem (env : MetaEnv) (st : MetaState) (c : Nat)
    (l : List String) (L : List String)
    (h : relationNamesOf env st c l = Except.ok L) (k : String) :
    k ∈ L ↔ k ∈ l ∧ ∃ o, getFieldOptions env st c k = some o ∧ isRelationAppType o = true := by
  induction l generalizing L with
  | nil =>
    simp only [relationNamesOf] at h
    cases h
    simp
  | cons f rest ih =>
    cases hf : getFieldOptions env st c f with
    | none => simp [relationNamesOf, hf] at h
    | some o =>
      simp only [relationNamesOf, hf] at h
      cases hrest : relationNamesOf env st c rest with
      | error e => rw [hrest] at h; simp [Except.map] at h
      | ok L' =>
        rw [hrest] at h
        simp only [Except.map] at h
        cases h
        by_cases ho : isRelationAppType o = true
        · simp only [if_pos ho, List.mem_cons]
          constructor
          · rintro (rfl | hk)
            · exact ⟨Or.inl rfl, o, hf, ho⟩
            · obtain ⟨hmem, o', ho1, ho2⟩ := (ih L' hrest).mp hk
              exact ⟨Or.inr hmem, o', ho1, ho2⟩
          · rintro ⟨(rfl | hmem), o', ho1, ho2⟩
            · exact Or.inl rfl
            · exact Or.inr ((ih L' hrest).mpr ⟨hmem, o', ho1, ho2⟩)
        · simp only [if_neg ho]
          constructor
          · intro hk
            obtain ⟨hmem, o', ho1, ho2⟩ := (ih L' hrest).mp hk
            exact ⟨List.mem_cons_of_mem f hmem, o', ho1, ho2⟩
          · rintro ⟨hmem, o', ho1, ho2⟩
            rcases List.mem_cons.mp hmem with rfl | hmem
            · rw [hf] at ho1
              injection ho1 with ho1
              subst ho1
              exact absurd ho2 ho
            · exact (ih L' hrest).mpr ⟨hmem, o', ho1, ho2⟩

theorem columnMetaDecorator_found (env : MetaEnv) (o : FieldOptions)
    (dn : Option String) (cid : Nat) (p : String) (st : MetaState) (r : Nat)
    (h : getOwnKeysRef st (env.chain cid) = some r) :
    columnMetaDecorator env o dn cid p st =
      { arrayCount := st.arrayCount
        arrays := fun q => if q = r then st.arrays r ++ [p] else st.arrays q
        keysRef := fun d => if d = cid then some r else st.keysRef d
        fieldMeta := fun d f => if d = cid ∧ f = p then some o else st.fieldMeta d f
        fieldDecoratorName := fun d f =>
          if d = cid ∧ f = p then dn else st.fieldDecoratorName d f } := by
  simp only [columnMetaDecorator, h]

theorem columnMetaDecorator_fresh (env : MetaEnv) (o : FieldOptions)
    (dn : Option String) (cid : Nat) (p : String) (st : MetaState)
    (h : getOwnKeysRef st (env.chain cid) = none) :
    columnMetaDecorator env o dn cid p st =
      { arrayCount := st.arrayCount + 1
        arrays := fun q => if q = st.arrayCount then [p] else st.arrays q
        keysRef := fun d => if d = cid then some st.arrayCount else st.keysRef d
        fieldMeta := fun d f => if d = cid ∧ f = p then some o else st.fieldMeta d f
        fieldDecoratorName := fun d f =>
          if d = cid ∧ f = p then dn else st.fieldDecoratorName d f } := by
  simp only [columnMetaDecorator, h]

theorem singleClassInv_init (c : Nat) : SingleClassInv c initialMetaState :=
  ⟨fun _ _ => rfl, fun _ _ _ => rfl, fun _ hr => Option.noConfusion hr⟩

theorem singleClassInv_step (env : MetaEnv) (c : Nat) (o : FieldOptions)
    (dn : Option String) (p : String) (st : MetaState)
    (hchain : ∃ rest, env.chain c = c :: rest)
    (h : SingleClassInv c st) : SingleClassInv c (columnMetaDecorator env o dn c p st) := by
  obtain ⟨rest, hrest⟩ := hchain
  obtain ⟨h1, h2, h3⟩ := h
  cases hc : st.keysRef c with
  | some r =>
    have hfind : getOwnKeysRef st (env.chain c) = some r := by
      rw [hrest]; exact getOwnKeysRef_cons_some st c rest r hc
    rw [columnMetaDecorator_found env o dn c p st r hfind]
    refine ⟨fun d hd => ?_, fun d f hd => ?_, fun r' hr' f hf => ?_⟩
    · simpa [hd] using h1 d hd
    · simpa [hd] using h2 d f hd
    · have hrr : r' = r := by
        simp at hr'
        exact hr'.symm
      subst hrr
      simp only [List.mem_append, List.mem_singleton, if_pos rfl, eq_self_iff_true,
        if_true] at hf
      by_cases hfp : f = p
      · simp [hfp]
      · simp only [ne_eq, hfp, and_false, if_false]
        rcases hf with hf | hf
        · exact h3 r' hc f hf
        · exact absurd hf hfp
  | none =>
    have hall : ∀ d, st.keysRef d = none := by
      intro d
      by_cases hd : d = c
      · rw [hd]; exact hc
      · exact h1 d hd
    have hfind : getOwnKeysRef st (env.chain c) = none :=
      getOwnKeysRef_eq_none st hall (env.chain c)
    rw [columnMetaDecorator_fresh env o dn c p st hfind]
    refine ⟨fun d hd => ?_, fun d f hd => ?_, fun r' hr' f hf => ?_⟩
    · simpa [hd] using hall d
    · simpa [hd] using h2 d f hd
    · have hrr : r' = st.arrayCount := by
        simp at hr'
        exact hr'.symm
      subst hrr
      simp only [List.mem_singleton, if_pos rfl, eq_self_iff_true, if_true] at hf
      simp [hf]

theorem singleClassInv_of_reachableOn (env : MetaEnv) (c : Nat) (st : MetaState)
    (hchain : ∃ rest, env.chain c = c :: rest)
    (h : ReachableOn env c st) : SingleClassInv c st := by
  induction h with
  | init => exact singleClassInv_init c
  | step o dn p st hst ih => exact singleClassInv_step env c o dn p st hchain ih

theorem singleClass_fields_have_meta (env : MetaEnv) (c : Nat) (st : MetaState)
    (d : Nat) (hinv : SingleClassInv c st) :
    ∀ f ∈ getMetaFields env st d, getFieldOptions env st d f ≠ none := by
  obtain ⟨h1, _h2, h3⟩ := hinv
  intro f hf
  unfold getMetaFields at hf
  cases hk : getOwnKeysRef st (env.chain d) with
  | none => rw [hk] at hf; simp at hf
  | some r =>
    rw [hk] at hf
    simp only at hf
    obtain ⟨d', hd', hkd'⟩ := getOwnKeysRef_mem st (env.chain d) r hk
    have hdc : d' = c := by
      by_contra hne
      rw [h1 d' hne] at hkd'
      exact Option.noConfusion hkd'
    rw [hdc] at hd' hkd'
    have hfm : st.fieldMeta c f ≠ none := h3 r hkd' f hf
    exact getOwnFieldMeta_ne_none_of_mem st f (env.chain d) c hd' hfm

-- ### Mapper helper lemma

theorem mapRows_ok (c : Nat) (rn : String) (rows : List Model) :
    CrudRepository.mapRows (some c) rn rows =
      Except.ok (rows.map (fun e => anyToModel e c)) := by
  induction rows with
  | nil => rfl
  | cons r rows ih =>
    simp [CrudRepository.mapRows, CrudRepository.entityToModel, ih, Except.map]

-- ### Claim theorems

/-- Claim C1: for every id not present in storage, `update(id, model, txHandler?)`
fails with the NotFound error thrown synchronously after the locate step, and
neither the `beforeSave` hook nor the `afterSave` hook is invoked. -/
theorem claim_C1_update_not_found (env : MetaEnv) (st : MetaState) (ctor : Nat)
    (db : Int → Option Model) (id : Int) (model : Model) (useTx : Bool)
    (rels : List String)
    (hmeta : getMetaRelations env st ctor = Except.ok rels)
    (hdb : db id = none) :
    (CrudRepository.update env st ctor db id model useTx).outcome =
      Except.error ("Not found model by id: " ++ toString id) ∧
    (CrudRepository.update env st ctor db id model useTx).events = [(Step.locate, false)] ∧
    (∀ b, (Step.beforeSaveStep, b) ∉
      (CrudRepository.update env st ctor db id model useTx).events) ∧
    (∀ b, (Step.afterSaveStep, b) ∉
      (CrudRepository.update env st ctor db id model useTx).events) := by
  simp [CrudRepository.update, hmeta, hdb]

/-- Witness for C1 at an empty storage and id 5. -/
theorem claim_C1_witness :
    (getMetaRelations flatChainEnv initialMetaState 0 = Except.ok [] ∧
      emptyDb 5 = none) ∧
    ((CrudRepository.update flatChainEnv initialMetaState 0 emptyDb 5 [] false).outcome =
      Except.error ("Not found model by id: " ++ toString (5 : Int)) ∧
    (CrudRepository.update flatChainEnv initialMetaState 0 emptyDb 5 [] false).events =
      [(Step.locate, false)] ∧
    (∀ b, (Step.beforeSaveStep, b) ∉
      (CrudRepository.update flatChainEnv initialMetaState 0 emptyDb 5 [] false).events) ∧
    (∀ b, (Step.afterSaveStep, b) ∉
      (CrudRepository.update flatChainEnv initialMetaState 0 emptyDb 5 [] false).events)) :=
  ⟨⟨rfl, rfl⟩,
   claim_C1_update_not_found flatChainEnv initialMetaState 0 emptyDb 5 [] false [] rfl rfl⟩

/-- Claim C2: the relations of the Search Query built by `update` are exactly
the field names that are declared relation fields of the model's class
(descriptor `appType` `relation` or `relationId`) and are present as own
properties on the incoming model. -/
theorem claim_C2_update_relations (env : MetaEnv) (st : MetaState) (ctor : Nat)
    (db : Int → Option Model) (id : Int) (model : Model) (useTx : Bool)
    (hmeta : ∀ f ∈ getMetaFields env st ctor, getFieldOptions env st ctor f ≠ none) :
    ∀ k, k ∈ (CrudRepository.update env st ctor db id model useTx).searchRelations ↔
      ((k ∈ getMetaFields env st ctor ∧
        ∃ o, getFieldOptions env st ctor k = some o ∧ isRelationAppType o = true) ∧
       hasProp model k = true) := by
  obtain ⟨L, hL⟩ := relationNamesOf_ok env st ctor (getMetaFields env st ctor) hmeta
  have hL' : getMetaRelations env st ctor = Except.ok L := hL
  intro k
  have hmem := relationNamesOf_mem env st ctor (getMetaFields env st ctor) L hL k
  cases hdb : db id with
  | none =>
    simp only [CrudRepository.update, hL', hdb, List.mem_filter]
    rw [hmem]
  | some prev =>
    simp only [CrudRepository.update, hL', hdb, List.mem_filter]
    rw [hmem]

/-- Witness for C2: declared relations `author`, `tags`; the incoming model
touches `title` and `tags`; the computed relations are exactly `tags`. -/
theorem claim_C2_witness :
    (∀ f ∈ getMetaFields flatChainEnv articleMetaState 0,
      getFieldOptions flatChainEnv articleMetaState 0 f ≠ none) ∧
    (CrudRepository.update flatChainEnv articleMetaState 0 emptyDb 1 sampleRelPatch
      false).searchRelations = ["tags"] ∧
    (∀ k, k ∈ (CrudRepository.update flatChainEnv articleMetaState 0 emptyDb 1
        sampleRelPatch false).searchRelations ↔
      ((k ∈ getMetaFields flatChainEnv articleMetaState 0 ∧
        ∃ o, getFieldOptions flatChainEnv articleMetaState 0 k = some o ∧
          isRelationAppType o = true) ∧
       hasProp sampleRelPatch k = true)) :=
  ⟨by decide, rfl,
   claim_C2_update_relations flatChainEnv articleMetaState 0 emptyDb 1 sampleRelPatch
     false (by decide)⟩

/-- Claim C3 counterexample: in the hook-based `CrudRepository`
(src/unnamed/part_001), `create` does not clear the primary key — the model
handed to the mapper still carries the caller's id 99, not `undefined` or
`null`. -/
theorem claim_C3_counterexample :
    getProp (CrudRepository.create prePopulatedModel false).persistedModel "id" =
      some (Value.vInt 99) ∧
    some (Value.vInt 99) ≠ some Value.vUndefined ∧
    some (Value.vInt 99) ≠ some Value.vNull := by
  refine ⟨rfl, ?_, ?_⟩ <;> · intro h; injection h with h; cases h

/-- Claim C3 (amended): only the save-pipeline variant
(src/src/infrastructure/repositories/CrudRepository.ts) sets the primary-key
property to `undefined` before persisting; the hook-based variant
(src/unnamed/part_001) hands the incoming model to the mapper unchanged, so a
caller-pre-populated primary key is passed through. -/
theorem claim_C3_create_variants (pk : String) (model : Model) (useTx : Bool) :
    getProp (CrudRepositorySaveVariant.create pk model useTx).persistedModel pk =
      some Value.vUndefined ∧
    (CrudRepository.create model useTx).persistedModel = model :=
  ⟨getProp_setProp_self model pk Value.vUndefined, rfl⟩

/-- Claim C4 counterexample: `remove(7)` without a transaction handler invokes
neither `beforeDelete` nor `afterDelete`; only the raw removal happens. -/
theorem claim_C4_counterexample :
    (Step.beforeDeleteStep, false) ∉ CrudRepository.remove 7 false ∧
    (Step.beforeDeleteStep, true) ∉ CrudRepository.remove 7 false ∧
    (Step.afterDeleteStep, false) ∉ CrudRepository.remove 7 false ∧
    (Step.afterDeleteStep, true) ∉ CrudRepository.remove 7 false ∧
    (Step.removeStep, false) ∈ CrudRepository.remove 7 false := by
  decide

/-- Claim C4 (amended): with a transaction handler, `remove` runs
`beforeDelete` before the removal and `afterDelete` after it; without one it
performs only the raw removal and invokes neither hook; both hooks are no-ops
by default. -/
theorem claim_C4_remove_hooks (id : Int) (db : Int → Option Model) :
    CrudRepository.remove id true =
      [(Step.beforeDeleteStep, true), (Step.removeStep, true), (Step.afterDeleteStep, true)] ∧
    CrudRepository.remove id false = [(Step.removeStep, false)] ∧
    CrudRepository.beforeDeleteDefault id db = db ∧
    CrudRepository.afterDeleteDefault id db = db :=
  ⟨rfl, rfl, rfl, rfl⟩

/-- Claim C5: when the previous state exists, the next state handed to
`beforeSave` and persisted takes, for every property present on the incoming
model, the incoming model's value (whole-property replacement), and keeps the
previous state's value for every other property. -/
theorem claim_C5_update_merge (env : MetaEnv) (st : MetaState) (ctor : Nat)
    (db : Int → Option Model) (id : Int) (model : Model) (useTx : Bool)
    (prev next : Model)
    (hdb : db id = some prev)
    (hnodup : (model.map Prod.fst).Nodup)
    (hnext : (CrudRepository.update env st ctor db id model useTx).outcome =
      Except.ok next) :
    ∀ k, getProp next k =
      if hasProp model k then getProp model k else getProp prev k := by
  cases hmeta : getMetaRelations env st ctor with
  | error e => simp [CrudRepository.update, hmeta] at hnext
  | ok rels =>
    simp only [CrudRepository.update, hmeta, hdb, Except.ok.injEq] at hnext
    intro k
    rw [← hnext]
    exact getProp_applyChangesToModel model (cloneDeep prev) hnodup k

/-- Witness for C5: the patch replaces `title` and the whole `author`
sub-object; `id` keeps the previous value. -/
theorem claim_C5_witness :
    (sampleDb 1 = some sampleArticle ∧
     (samplePatch.map Prod.fst).Nodup ∧
     (CrudRepository.update flatChainEnv initialMetaState 0 sampleDb 1 samplePatch
        false).outcome = Except.ok (applyChangesToModel sampleArticle samplePatch)) ∧
    (∀ k, getProp (applyChangesToModel sampleArticle samplePatch) k =
      if hasProp samplePatch k then getProp samplePatch k else getProp sampleArticle k) :=
  ⟨⟨rfl, by decide, rfl⟩,
   claim_C5_update_merge flatChainEnv initialMetaState 0 sampleDb 1 samplePatch false
     sampleArticle (applyChangesToModel sampleArticle samplePatch) rfl (by decide) rfl⟩

/-- Claim C6 counterexample: with a transaction wrapper supplied, the locate
of the previous state does not execute inside the wrapper callback — it runs
before the wrapper, outside the transaction. -/
theorem claim_C6_counterexample :
    (Step.locate, true) ∉
      (CrudRepository.update flatChainEnv initialMetaState 0 sampleDb 1
        samplePatch true).events ∧
    (Step.locate, false) ∈
      (CrudRepository.update flatChainEnv initialMetaState 0 sampleDb 1
        samplePatch true).events := by
  decide

/-- Claim C6 (amended): when a transaction wrapper is supplied, only the
persist phase (`beforeSave`, save, `afterSave`) executes inside the callback
handed to the wrapper; the locate of the previous state runs before the
wrapper is invoked, on the default connection outside the transaction. -/
theorem claim_C6_persist_phase_in_wrapper (env : MetaEnv) (st : MetaState)
    (ctor : Nat) (db : Int → Option Model) (id : Int) (model : Model)
    (prev : Model) (rels : List String)
    (hmeta : getMetaRelations env st ctor = Except.ok rels)
    (hdb : db id = some prev) :
    (CrudRepository.update env st ctor db id model true).events =
      [(Step.locate, false), (Step.beforeSaveStep, true), (Step.persistStep, true),
       (Step.afterSaveStep, true)] := by
  simp [CrudRepository.update, hmeta, hdb]

/-- Witness for C6 at the sample storage. -/
theorem claim_C6_witness :
    (getMetaRelations flatChainEnv initialMetaState 0 = Except.ok [] ∧
      sampleDb 1 = some sampleArticle) ∧
    (CrudRepository.update flatChainEnv initialMetaState 0 sampleDb 1
        samplePatch true).events =
      [(Step.locate, false), (Step.beforeSaveStep, true), (Step.persistStep, true),
       (Step.afterSaveStep, true)] :=
  ⟨⟨rfl, rfl⟩,
   claim_C6_persist_phase_in_wrapper flatChainEnv initialMetaState 0 sampleDb 1
     samplePatch sampleArticle [] rfl rfl⟩

/-- Claim C7 counterexample: re-applying a field decorator to the same
property does not leave the metadata store in the state of only the last
decoration: the per-class field-name list gains a duplicate entry. -/
theorem claim_C7_counterexample :
    getMetaFields flatChainEnv redecoratedTwiceState 0 = ["f", "f"] ∧
    getMetaFields flatChainEnv lastDecorationOnlyState 0 = ["f"] ∧
    getMetaFields flatChainEnv redecoratedTwiceState 0 ≠
      getMetaFields flatChainEnv lastDecorationOnlyState 0 := by
  refine ⟨rfl, rfl, ?_⟩
  decide

/-- Claim C7 (amended): re-applying a field decorator to the same
(class, property) overwrites the stored descriptor — last write wins — but
appends the property name to the per-class field-name list again, so the list
holds the name twice instead of matching the only-last-decoration state. -/
theorem claim_C7_redecoration (env : MetaEnv) (c : Nat) (rest : List Nat)
    (p : String) (o1 o2 : FieldOptions) (d1 d2 : Option String)
    (hchain : env.chain c = c :: rest) :
    getFieldOptions env
        (columnMetaDecorator env o2 d2 c p
          (columnMetaDecorator env o1 d1 c p initialMetaState)) c p = some o2 ∧
    getMetaFields env
        (columnMetaDecorator env o2 d2 c p
          (columnMetaDecorator env o1 d1 c p initialMetaState)) c = [p, p] := by
  have h0 : getOwnKeysRef initialMetaState (env.chain c) = none :=
    getOwnKeysRef_eq_none initialMetaState (fun _ => rfl) (env.chain c)
  have e1 := columnMetaDecorator_fresh env o1 d1 c p initialMetaState h0
  have hk1 : (columnMetaDecorator env o1 d1 c p initialMetaState).keysRef c = some 0 := by
    rw [e1]
    simp [initialMetaState]
  have h1find :
      getOwnKeysRef (columnMetaDecorator env o1 d1 c p initialMetaState)
        (env.chain c) = some 0 := by
    rw [hchain]
    exact getOwnKeysRef_cons_some _ c rest 0 hk1
  have e2 := columnMetaDecorator_found env o2 d2 c p
    (columnMetaDecorator env o1 d1 c p initialMetaState) 0 h1find
  rw [e2, e1]
  constructor
  · unfold getFieldOptions
    rw [hchain]
    simp [getOwnFieldMeta]
  · unfold getMetaFields
    rw [hchain]
    rw [getOwnKeysRef_cons_some _ c rest 0 (by simp)]
    simp [initialMetaState]

/-- Witness for C7 in the flat-chain universe at class 0, property f. -/
theorem claim_C7_witness :
    (flatChainEnv.chain 0 = 0 :: ([] : List Nat)) ∧
    (getFieldOptions flatChainEnv
        (columnMetaDecorator flatChainEnv strOptions (some "StringField") 0 "f"
          (columnMetaDecorator flatChainEnv relOptions (some "RelationField") 0 "f"
            initialMetaState)) 0 "f" = some strOptions ∧
     getMetaFields flatChainEnv
        (columnMetaDecorator flatChainEnv strOptions (some "StringField") 0 "f"
          (columnMetaDecorator flatChainEnv relOptions (some "RelationField") 0 "f"
            initialMetaState)) 0 = ["f", "f"]) :=
  ⟨rfl,
   claim_C7_redecoration flatChainEnv 0 [] "f" relOptions strOptions
     (some "RelationField") (some "StringField") rfl⟩

/-- Claim C8 counterexample: the registry/descriptor invariant is not
preserved by every decorator execution.  Decorating `f1` on class 0 and then
`f2` on its subclass (class 1) pushes `f2` into class 0's inherited
field-name array, so class 0's registry names `f2` while class 0 has no
descriptor for it, and `getMetaRelations` on class 0 reads the `appType` of a
missing descriptor and fails. -/
theorem claim_C8_counterexample :
    ReachableMeta subclassEnv subclassState ∧
    "f2" ∈ getMetaFields subclassEnv subclassState 0 ∧
    getFieldOptions subclassEnv subclassState 0 "f2" = none ∧
    getMetaRelations subclassEnv subclassState 0 =
      Except.error "TypeError: Cannot read properties of undefined (reading appType)" := by
  refine ⟨?_, ?_, rfl, rfl⟩
  · exact ReachableMeta.step _ _ _ _ _ (ReachableMeta.step _ _ _ _ _ ReachableMeta.init)
  · decide

/-- Claim C8 (amended): for decorator executions that all target one class
(no decorated subclass sharing the inherited field-name array), every name in
any class's registry has a descriptor reachable on that class, and
`getMetaRelations` never reads the `appType` of a missing descriptor. -/
theorem claim_C8_single_class_invariant (env : MetaEnv) (c : Nat) (st : MetaState)
    (hchain : ∃ rest, env.chain c = c :: rest)
    (hreach : ReachableOn env c st) :
    (∀ d f, f ∈ getMetaFields env st d → getFieldOptions env st d f ≠ none) ∧
    (∀ d, ∃ L, getMetaRelations env st d = Except.ok L) := by
  have hinv := singleClassInv_of_reachableOn env c st hchain hreach
  constructor
  · intro d f hf
    exact singleClass_fields_have_meta env c st d hinv f hf
  · intro d
    exact relationNamesOf_ok env st d (getMetaFields env st d)
      (fun f hf => singleClass_fields_have_meta env c st d hinv f hf)

/-- Witness for C8 on the single-class `articleMetaState`. -/
theorem claim_C8_witness :
    ((∃ rest, flatChainEnv.chain 0 = 0 :: rest) ∧
      ReachableOn flatChainEnv 0 articleMetaState) ∧
    ((∀ d f, f ∈ getMetaFields flatChainEnv articleMetaState d →
        getFieldOptions flatChainEnv articleMetaState d f ≠ none) ∧
     (∀ d, ∃ L, getMetaRelations flatChainEnv articleMetaState d = Except.ok L)) :=
  ⟨⟨⟨[], rfl⟩,
    ReachableOn.step _ _ _ _ (ReachableOn.step _ _ _ _
      (ReachableOn.step _ _ _ _ ReachableOn.init))⟩,
   claim_C8_single_class_invariant flatChainEnv 0 articleMetaState ⟨[], rfl⟩
     (ReachableOn.step _ _ _ _ (ReachableOn.step _ _ _ _
       (ReachableOn.step _ _ _ _ ReachableOn.init)))⟩

/-- Claim C9: with `modelClass` unset, `findOne`, `findMany` and `search`
throw the Misconfigured error naming the repository as soon as a row must be
mapped; with it set they return domain models built by `anyToModel`, never
raw entities, and `findOne` returns `null` when no row matches. -/
theorem claim_C9_mapping (rn : String) (r : Model) (rows : List Model)
    (row : Option Model) (c : Nat) (total : Nat) :
    CrudRepository.findOne none rn (some r) = Except.error (misconfiguredMsg rn) ∧
    CrudRepository.findMany none rn (r :: rows) = Except.error (misconfiguredMsg rn) ∧
    CrudRepository.searchMapped none rn (r :: rows) total =
      Except.error (misconfiguredMsg rn) ∧
    (∀ mc, CrudRepository.findOne mc rn none = Except.ok none) ∧
    CrudRepository.findOne (some c) rn row =
      Except.ok (row.map (fun e => anyToModel e c)) ∧
    CrudRepository.findMany (some c) rn rows =
      Except.ok (rows.map (fun e => anyToModel e c)) ∧
    CrudRepository.searchMapped (some c) rn rows total =
      Except.ok { items := rows.map (fun e => anyToModel e c), total := total } := by
  refine ⟨rfl, rfl, rfl, fun mc => rfl, ?_, ?_, ?_⟩
  · cases row with
    | none => rfl
    | some r' => rfl
  · exact mapRows_ok c rn rows
  · unfold CrudRepository.searchMapped
    rw [mapRows_ok c rn rows]
    rfl

/-- Claim C10: `BaseField` with its default `options = null` throws a
`TypeError` while building the decorator list (it dereferences
`options.jsType` and friends), for every `internalOptions`; with a non-null
options object it succeeds. -/
theorem claim_C10_baseField_null_options (io : InternalFieldOptions) :
    BaseField none io = Except.error baseFieldNullTypeError ∧
    ∀ o : FieldOptions, ∃ d, BaseField (some o) io = Except.ok d :=
  ⟨rfl, fun o => ⟨_, rfl⟩⟩
